import Mathlib

/-
Verification of the tensorslow reverse-mode autodiff core.

This file gives a shallow embedding of the data model and of the primitive
operations of the library (src/include/autodiff.hpp, src/src/autodiff_operations.cpp,
src/src/convolution.cpp) and proves or refutes the claims of the
natural-language specification against it.

Modelling conventions:
- Dense Eigen arrays are modelled by `ts.Mat`: a pair of dynamic dimensions
  together with a total entry function `Nat → Nat → ℚ`; statements only ever
  constrain entries inside the declared bounds.  The element type `T`
  (a real field in the spec) is modelled by `ℚ`.
- A `ts::WengertList` is a list of nodes plus the `elementWiseOnly` flag; a
  tape pointer is modelled by a `Nat` identifier, a possibly-null pointer by
  `Option Nat`, and the heap of tapes by `ts.World`, a total map from
  identifiers to tapes.  Pointer equality is identifier equality.
- Primitives that can write through the tape pointer before validating it
  return `Option (World × Tensor)`; `none` models a dereference of a null
  tape handle (undefined behaviour in the C++ source).  Primitives that only
  ever touch the tape through the node-appending constructor are total.
-/

namespace ts

/-- A dense 2-D array (Eigen::Array with dynamic rows/cols) over ℚ.  The
entry function is total; only indices below the bounds are meaningful. -/
structure Mat where
  rows : Nat
  cols : Nat
  entry : Nat → Nat → ℚ

/-- Extensional equality of matrices: equal shapes and equal entries inside
the bounds. -/
def MatEq (a b : Mat) : Prop :=
  a.rows = b.rows ∧ a.cols = b.cols ∧
    ∀ r < a.rows, ∀ c < a.cols, a.entry r c = b.entry r c

instance (a b : Mat) : Decidable (MatEq a b) := by
  unfold MatEq
  exact inferInstance

/-- The empty 0×0 array (Eigen::Array<T, 0, 0>()). -/
def emptyM : Mat := ⟨0, 0, fun _ _ => 0⟩

/-- Build a matrix from a list of rows (for concrete instances). -/
def ofLists (l : List (List ℚ)) : Mat :=
  ⟨l.length, (l.headD []).length, fun r c => (l.getD r []).getD c 0⟩

/-- Coefficient-wise unary operation (Eigen cwise op). -/
def cwise (f : ℚ → ℚ) (a : Mat) : Mat :=
  ⟨a.rows, a.cols, fun r c => f (a.entry r c)⟩

/-- Coefficient-wise binary operation; shapes agree at every call site by
validation, the result takes the shape of the first operand. -/
def cwise2 (f : ℚ → ℚ → ℚ) (a b : Mat) : Mat :=
  ⟨a.rows, a.cols, fun r c => f (a.entry r c) (b.entry r c)⟩

/-- grad.setOnes(r, c). -/
def onesM (r c : Nat) : Mat := ⟨r, c, fun _ _ => 1⟩

/-- All-zero matrix (setZero). -/
def zeroM (r c : Nat) : Mat := ⟨r, c, fun _ _ => 0⟩

/-- Matrix transpose. -/
def transposeM (a : Mat) : Mat := ⟨a.cols, a.rows, fun r c => a.entry c r⟩

/-- Matrix product x.matrix() * y.matrix(). -/
def matMulM (x y : Mat) : Mat :=
  ⟨x.rows, y.cols, fun i j => ∑ k ∈ Finset.range x.cols, x.entry i k * y.entry k j⟩

/-- Sum of squared entries: x.matrix().squaredNorm(). -/
def sqSum (a : Mat) : ℚ :=
  ∑ r ∈ Finset.range a.rows, ∑ c ∈ Finset.range a.cols, a.entry r c * a.entry r c

/-- Block overwrite: base.block(r0, c0, h, wd) = src, every other entry kept. -/
def setBlock (base : Mat) (r0 c0 h wd : Nat) (src : Mat) : Mat :=
  ⟨base.rows, base.cols, fun r c =>
    if r0 ≤ r ∧ r < r0 + h ∧ c0 ≤ c ∧ c < c0 + wd then
      src.entry (r - r0) (c - c0)
    else base.entry r c⟩

/-- ker.rowwise().reverse().colwise().reverse(): both axes reversed. -/
def reverse2 (a : Mat) : Mat :=
  ⟨a.rows, a.cols, fun r c => a.entry (a.rows - 1 - r) (a.cols - 1 - c)⟩

/-- The operation tag carried by a node (the C++ enum ts::OperationType for
the base variants; the node subclasses of convolution.hpp are further tags). -/
inductive OperationType where
  | noneOp
  | elementWise
  | matrixProduct
  | norm
  | convolutionOp
  | poolingOp
  | vertCatOp
  | flatteningOp
deriving DecidableEq

/-- One tape entry: output shape, tag, stored local-derivative factors and
dependency indices, plus the extra payloads of the subclassed nodes
(pool window, vertCat cumulative heights, flattening original size). -/
structure Node where
  rows : Nat
  cols : Nat
  operationType : OperationType
  values : List Mat := []
  dependencies : List Nat := []
  pool : List Nat := []
  heights : List Nat := []
  origSize : List Nat := []

/-- ts::WengertList: the recorded nodes and the elementWiseOnly flag. -/
structure WengertList where
  nodes : List Node
  elementWiseOnly : Bool

/-- A freshly constructed WengertList: no nodes, elementWiseOnly = true
(the in-class member initializers of autodiff.hpp). -/
def newWList : WengertList := ⟨[], true⟩

/-- ts::Tensor: a computed value, a possibly-null tape handle, and the index
of the node describing it.  `wList = none` models a NULL tape pointer. -/
structure Tensor where
  value : Mat
  wList : Option Nat
  index : Nat

/-- The heap of live tapes: a total map from tape identifiers to tapes.
Every non-null handle a primitive ever receives points to a live tape. -/
structure World where
  tapes : Nat → WengertList

/-- Replace one tape of the world. -/
def setTape (w : World) (i : Nat) (tp : WengertList) : World :=
  ⟨fun j => if j = i then tp else w.tapes j⟩

/-- The elementWiseOnly flag of tape t. -/
def flagOf (w : World) (t : Nat) : Bool := (w.tapes t).elementWiseOnly

/-- The recorded nodes of tape t. -/
def nodesOf (w : World) (t : Nat) : List Node := (w.tapes t).nodes

/-- Modelled from the spec: the failing branches of every primitive return
ts::Tensor(Eigen::Array<T,0,0>(), NULL) through the public Tensor
constructor, whose body lives in the missing autodiff.cpp; §7 of the spec
describes the result as the detectable sentinel with a null tape handle and
an empty value, and with no tape object referenced nothing can be appended. -/
def sentinelT : Tensor := ⟨emptyM, none, 0⟩

/-- The assignment wList->elementWiseOnly = false performed through a tape
pointer.  A null handle is dereferenced: undefined behaviour, modelled as
`none`. -/
def clearFlag (w : World) (h : Option Nat) : Option World :=
  match h with
  | none => none
  | some i => some (setTape w i { w.tapes i with elementWiseOnly := false })

/-- Modelled from the spec: the private Tensor constructor of the missing
autodiff.cpp; §2 (iii): a primitive appends exactly one node to the tape and
the returned tracked matrix carries the new index.  With a null handle there
is no tape object, so nothing is appended. -/
def appendNode (w : World) (h : Option Nat) (n : Node) (v : Mat) : World × Tensor :=
  match h with
  | none => (w, ⟨v, none, 0⟩)
  | some i =>
    (setTape w i { w.tapes i with nodes := (w.tapes i).nodes ++ [n] },
     ⟨v, some i, (w.tapes i).nodes.length⟩)

/-- ts::operator+ (autodiff_operations.cpp, lines 10-39). -/
def addT (w : World) (x y : Tensor) : World × Tensor :=
  if x.wList ≠ y.wList ∨ x.value.rows ≠ y.value.rows ∨ x.value.cols ≠ y.value.cols then
    (w, sentinelT)
  else
    appendNode w x.wList
      { rows := x.value.rows, cols := x.value.cols, operationType := .elementWise,
        values := [onesM x.value.rows x.value.cols, onesM x.value.rows x.value.cols],
        dependencies := [x.index, y.index] }
      (cwise2 (fun a b => a + b) x.value y.value)

/-- ts::operator- (autodiff_operations.cpp, lines 43-72). -/
def subT (w : World) (x y : Tensor) : World × Tensor :=
  if x.wList ≠ y.wList ∨ x.value.rows ≠ y.value.rows ∨ x.value.cols ≠ y.value.cols then
    (w, sentinelT)
  else
    appendNode w x.wList
      { rows := x.value.rows, cols := x.value.cols, operationType := .elementWise,
        values := [onesM x.value.rows x.value.cols,
                   cwise (fun a => (-1) * a) (onesM x.value.rows x.value.cols)],
        dependencies := [x.index, y.index] }
      (cwise2 (fun a b => a - b) x.value y.value)

/-- ts::operator* (Hadamard product; autodiff_operations.cpp, lines 76-102). -/
def mulT (w : World) (x y : Tensor) : World × Tensor :=
  if x.wList ≠ y.wList ∨ x.value.rows ≠ y.value.rows ∨ x.value.cols ≠ y.value.cols then
    (w, sentinelT)
  else
    appendNode w x.wList
      { rows := x.value.rows, cols := x.value.cols, operationType := .elementWise,
        values := [y.value, x.value],
        dependencies := [x.index, y.index] }
      (cwise2 (fun a b => a * b) x.value y.value)

/-- ts::operator/ (autodiff_operations.cpp, lines 106-132).  NOTE: the source
computes the forward value as x.value + y.value; this is embedded faithfully
(see §9 of the specification, which flags it as a near-certain bug). -/
def divT (w : World) (x y : Tensor) : World × Tensor :=
  if x.wList ≠ y.wList ∨ x.value.rows ≠ y.value.rows ∨ x.value.cols ≠ y.value.cols then
    (w, sentinelT)
  else
    appendNode w x.wList
      { rows := x.value.rows, cols := x.value.cols, operationType := .elementWise,
        values := [cwise (fun b => 1 / b) y.value,
                   cwise2 (fun a b => -a / (b * b)) x.value y.value],
        dependencies := [x.index, y.index] }
      (cwise2 (fun a b => a + b) x.value y.value)

/-- ts::sigmoid (autodiff_operations.cpp, lines 167-182); the ambient
elementwise exponential of the linear-algebra provider is a parameter. -/
def sigmoidT (expf : ℚ → ℚ) (w : World) (x : Tensor) : World × Tensor :=
  appendNode w x.wList
    { rows := x.value.rows, cols := x.value.cols, operationType := .elementWise,
      values := [cwise (fun a => expf a / (expf a + 1) ^ 2) x.value],
      dependencies := [x.index] }
    (cwise (fun a => expf a / (expf a + 1)) x.value)

/-- ts::matProd (autodiff_operations.cpp, lines 138-163). -/
def matProdT (w : World) (x y : Tensor) : Option (World × Tensor) :=
  if x.wList ≠ y.wList ∨ x.value.cols ≠ y.value.rows then
    some (w, sentinelT)
  else
    (clearFlag w x.wList).map (fun w1 =>
      appendNode w1 x.wList
        { rows := x.value.rows, cols := y.value.cols, operationType := .matrixProduct,
          values := [transposeM y.value, transposeM x.value],
          dependencies := [x.index, y.index] }
        (matMulM x.value y.value))

/-- ts::squaredNorm (autodiff_operations.cpp, lines 186-206). -/
def squaredNormT (w : World) (x : Tensor) : Option (World × Tensor) :=
  (clearFlag w x.wList).map (fun w1 =>
    appendNode w1 x.wList
      { rows := 1, cols := 1, operationType := .norm,
        values := [cwise (fun a => 2 * a) x.value],
        dependencies := [x.index] }
      ⟨1, 1, fun _ _ => sqSum x.value⟩)

/-- ts::convArray (convolution.cpp, lines 13-48): naive valid
cross-correlation; each output entry is (mat.block(j,i,kr,kc) * ker).sum(). -/
def convArray (mat ker : Mat) : Mat :=
  if mat.rows < ker.rows ∨ mat.cols < ker.cols then emptyM
  else
    ⟨mat.rows - ker.rows + 1, mat.cols - ker.cols + 1,
     fun j i => ∑ r ∈ Finset.range ker.rows, ∑ c ∈ Finset.range ker.cols,
        mat.entry (j + r) (i + c) * ker.entry r c⟩

/-- The im2col matrix of ts::im2conv (convolution.cpp, lines 83-101): the
loop writes row j*newCols+i from the window at (j,i); a default (column
major) Eigen array block flattened by Eigen::Map lists entry h as
(h % kr, h / kr).  Reading row ridx back, the window is
(ridx / newCols, ridx % newCols). -/
def im2colMat (mat ker : Mat) : Mat :=
  ⟨(mat.rows - ker.rows + 1) * (mat.cols - ker.cols + 1), ker.rows * ker.cols,
   fun ridx h =>
     mat.entry (ridx / (mat.cols - ker.cols + 1) + h % ker.rows)
               (ridx % (mat.cols - ker.cols + 1) + h / ker.rows)⟩

/-- vertKer of ts::im2conv (convolution.cpp, lines 74-78): the kernel
flattened in column-major storage order into a column vector. -/
def flattenColMajor (a : Mat) : Mat :=
  ⟨a.rows * a.cols, 1, fun h _ => a.entry (h % a.rows) (h / a.rows)⟩

/-- res.resize(newRows, newCols) on a RowMajor array of size newRows*newCols
by 1: the storage is reinterpreted row-major. -/
def reshapeRowMajor (v : Mat) (r c : Nat) : Mat :=
  ⟨r, c, fun j i => v.entry (j * c + i) 0⟩

/-- ts::im2conv (convolution.cpp, lines 52-111). -/
def im2conv (mat ker : Mat) : Mat :=
  if mat.rows < ker.rows ∨ mat.cols < ker.cols then emptyM
  else
    reshapeRowMajor (matMulM (im2colMat mat ker) (flattenColMajor ker))
      (mat.rows - ker.rows + 1) (mat.cols - ker.cols + 1)

/-- dMat of ts::convolution (convolution.cpp, lines 169-179): a zero matrix
of shape (2*outR + kr - 2, 2*outC + kc - 2) whose (kr, kc) block at offset
(outR - 1, outC - 1) is ker with both axes reversed. -/
def convDMat (outR outC : Nat) (ker : Mat) : Mat :=
  setBlock (zeroM (2 * outR + ker.rows - 2) (2 * outC + ker.cols - 2))
    (outR - 1) (outC - 1) ker.rows ker.cols (reverse2 ker)

/-- ts::convolution (convolution.cpp, lines 145-190). -/
def convolutionT (w : World) (mat ker : Tensor) : Option (World × Tensor) :=
  if mat.wList ≠ ker.wList ∨ mat.value.rows < ker.value.rows ∨
      mat.value.cols < ker.value.cols then
    some (w, sentinelT)
  else
    (clearFlag w mat.wList).map (fun w1 =>
      appendNode w1 mat.wList
        { rows := (convArray mat.value ker.value).rows,
          cols := (convArray mat.value ker.value).cols,
          operationType := .convolutionOp,
          values := [convDMat (convArray mat.value ker.value).rows
                       (convArray mat.value ker.value).cols ker.value,
                     mat.value],
          dependencies := [mat.index, ker.index] }
        (convArray mat.value ker.value))

/-- The accumulator of the max/argmax scan of ts::maxPooling: the current
argmax coordinates (xMax, yMax) and the current maximum. -/
structure ScanSt where
  xMax : Nat
  yMax : Nat
  maxVal : ℚ

/-- One comparison step of the scan: strict improvement updates. -/
def poolScanStep (x : Mat) (st : ScanSt) (r c : Nat) : ScanSt :=
  if x.entry r c > st.maxVal then ⟨r, c, x.entry r c⟩ else st

/-- The scan of one output cell (j, i) of ts::maxPooling (convolution.cpp,
lines 300-318), exactly as in the source: initialisation reads
x(j*pool[0], i*pool[1]); the loops run k over pool[1] (outer) and l over
pool[0] (inner) and read x(j*pool[1] + l, i*pool[0] + k). -/
def poolScan (x : Mat) (p0 p1 j i : Nat) : ScanSt :=
  (List.range p1).foldl
    (fun st k =>
      (List.range p0).foldl
        (fun st2 l => poolScanStep x st2 (j * p1 + l) (i * p0 + k)) st)
    ⟨j * p0, i * p1, x.entry (j * p0) (i * p1)⟩

/-- The forward result of ts::maxPooling: res(j, i) is the final maximum of
the scan of cell (j, i). -/
def maxPoolingRes (x : Mat) (p0 p1 : Nat) : Mat :=
  ⟨x.rows / p0, x.cols / p1, fun j i => (poolScan x p0 p1 j i).maxVal⟩

/-- The stored mask dx of ts::maxPooling: zero-initialised, then dx(xMax,
yMax) = 1 for the final argmax of every output cell; all written values are
1, so the result is 1 exactly on the set of final argmax positions. -/
def maxPoolingMask (x : Mat) (p0 p1 : Nat) : Mat :=
  ⟨x.rows, x.cols, fun r c =>
    if ∃ i < x.cols / p1, ∃ j < x.rows / p0,
        (poolScan x p0 p1 j i).xMax = r ∧ (poolScan x p0 p1 j i).yMax = c
    then 1 else 0⟩

/-- ts::maxPooling (convolution.cpp, lines 259-337). -/
def maxPoolingT (w : World) (x : Tensor) (pool : List Nat) : Option (World × Tensor) :=
  if pool.length ≠ 2 then some (w, sentinelT)
  else if x.value.rows % pool.getD 0 0 ≠ 0 ∨ x.value.cols % pool.getD 1 0 ≠ 0 then
    some (w, sentinelT)
  else
    (clearFlag w x.wList).map (fun w1 =>
      appendNode w1 x.wList
        { rows := x.value.rows / pool.getD 0 0, cols := x.value.cols / pool.getD 1 0,
          operationType := .poolingOp,
          values := [maxPoolingMask x.value (pool.getD 0 0) (pool.getD 1 0)],
          dependencies := [x.index], pool := pool }
        (maxPoolingRes x.value (pool.getD 0 0) (pool.getD 1 0)))

/-- The element reads x.value(r, c) performed by the forward max/argmax scan
of ts::maxPooling on an input of the given shape (the initialisation read
and the inner-loop reads, over all output cells). -/
def poolReads (rows cols p0 p1 r c : Nat) : Prop :=
  ∃ i < cols / p1, ∃ j < rows / p0,
    (r = j * p0 ∧ c = i * p1) ∨
    ∃ k < p1, ∃ l < p0, r = j * p1 + l ∧ c = i * p0 + k

/-- Spec-side definition, from the words of the specification only: the
maximum of the ph×pw window of x whose top-left corner is (j*ph, i*pw),
rows addressed by ph and columns by pw. -/
def poolWindowMaxSpec (x : Mat) (ph pw j i : Nat) : ℚ :=
  (List.range ph).foldl
    (fun m l =>
      (List.range pw).foldl
        (fun m2 k => max m2 (x.entry (j * ph + l) (i * pw + k))) m)
    (x.entry (j * ph) (i * pw))

/-- Row-wise stacking of a list of matrices (the block writes of
ts::vertCat, convolution.cpp, lines 427-432). -/
def stackEntry : List Mat → Nat → Nat → ℚ
  | [], _, _ => 0
  | m :: rest, r, c => if r < m.rows then m.entry r c else stackEntry rest (r - m.rows) c

/-- The stacked result value of ts::vertCat. -/
def vertCatVal (xs : List Tensor) : Mat :=
  ⟨(xs.map (fun t => t.value.rows)).sum, (xs.headD sentinelT).value.cols,
   stackEntry (xs.map (fun t => t.value))⟩

/-- The cumulative starting heights recorded by ts::vertCat. -/
def cumHeights (xs : List Tensor) : List Nat :=
  (List.range (xs.length + 1)).map
    (fun n => ((xs.take n).map (fun t => t.value.rows)).sum)

/-- ts::vertCat (convolution.cpp, lines 391-445).  Note the order of the
source: the elementWiseOnly flag of the tape of x[0] is cleared before the
per-operand width and tape checks run. -/
def vertCatT (w : World) (xs : List Tensor) : Option (World × Tensor) :=
  match xs with
  | [] => some (w, sentinelT)
  | x0 :: rest =>
    (clearFlag w x0.wList).map (fun w1 =>
      if ∀ xi ∈ x0 :: rest, xi.value.cols = x0.value.cols ∧ xi.wList = x0.wList then
        appendNode w1 x0.wList
          { rows := (vertCatVal (x0 :: rest)).rows, cols := (vertCatVal (x0 :: rest)).cols,
            operationType := .vertCatOp,
            dependencies := (x0 :: rest).map (fun t => t.index),
            heights := cumHeights (x0 :: rest) }
          (vertCatVal (x0 :: rest))
      else (w1, sentinelT))

/-- The forward value of ts::flattening (convolution.cpp, lines 513-517):
the RowMajor copy of x mapped to a column vector lists the entries in
row-major storage order, entry k being x(k / cols, k % cols). -/
def flatteningVal (x : Mat) : Mat :=
  ⟨x.rows * x.cols, 1, fun k _ => x.entry (k / x.cols) (k % x.cols)⟩

/-- ts::FlatteningNode::incrementGradient (convolution.cpp, lines 475-498):
reshape the column vector d back to the stored original size, row-major. -/
def flattenIncGrad (s0 s1 : Nat) (d : Mat) : Mat :=
  ⟨s0, s1, fun j i => d.entry (j * s1 + i) 0⟩

/-- ts::flattening (convolution.cpp, lines 502-536): no validation; the
elementWiseOnly flag of the tape of x is cleared unconditionally (a null handle
is dereferenced), then the node is appended. -/
def flatteningT (w : World) (x : Tensor) : Option (World × Tensor) :=
  (clearFlag w x.wList).map (fun w1 =>
    appendNode w1 x.wList
      { rows := x.value.rows * x.value.cols, cols := 1,
        operationType := .flatteningOp,
        values := [emptyM], dependencies := [x.index],
        origSize := [x.value.rows, x.value.cols] }
      (flatteningVal x.value))

/-- A leaf node of the given shape (for concrete worlds). -/
def leafN (r c : Nat) : Node := { rows := r, cols := c, operationType := .noneOp }

/-- A concrete world: every identifier holds a tape with two 1×1 leaves and
the elementWiseOnly flag still true. -/
def wC : World := ⟨fun _ => ⟨[leafN 1 1, leafN 1 1], true⟩⟩

/-- Concrete 1×1 tracked matrix with value 4 at index 0 of tape 0. -/
def tA : Tensor := ⟨ofLists [[4]], some 0, 0⟩

/-- Concrete 1×1 tracked matrix with value 2 at index 1 of tape 0. -/
def tB : Tensor := ⟨ofLists [[2]], some 0, 1⟩

/-- Concrete 1×2 tracked matrix (column-count mismatch partner). -/
def tWide : Tensor := ⟨ofLists [[1, 2]], some 0, 1⟩

/-- Concrete 2×1 tracked matrix (matProd inner-dimension mismatch partner). -/
def tTall : Tensor := ⟨ofLists [[1], [2]], some 0, 1⟩

/-- Concrete 3×3 matrix for convolution instances. -/
def m33 : Mat := ofLists [[1, 2, 3], [4, 5, 6], [7, 8, 9]]

/-- Concrete 2×2 kernel for convolution instances. -/
def k22 : Mat := ofLists [[1, 0], [0, 2]]

/-- Tracked 3×3 matrix on tape 0. -/
def tM33 : Tensor := ⟨m33, some 0, 0⟩

/-- Tracked 2×2 kernel on tape 0. -/
def tK22 : Tensor := ⟨k22, some 0, 1⟩

/-- The 4×1 input on which the pooling scan of the source returns a wrong
window maximum: column vector (0, 0, 0, 5). -/
def xPool : Mat := ofLists [[0], [0], [0], [5]]

/-- Concrete 2×2 matrix for the flattening instance. -/
def m22 : Mat := ofLists [[1, 2], [3, 4]]

/-- Tracked 2×2 matrix on tape 0. -/
def tX22 : Tensor := ⟨m22, some 0, 0⟩

/-- Concrete 1×1 tracked matrix on a different tape (tape 1). -/
def tOther : Tensor := ⟨ofLists [[3]], some 1, 0⟩

instance (rows cols p0 p1 r c : Nat) : Decidable (poolReads rows cols p0 p1 r c) := by
  unfold poolReads
  exact inferInstance

-- Helper lemmas about the world model

lemma flagOf_setTape (w : World) (i : Nat) (tp : WengertList) (t : Nat) :
    flagOf (setTape w i tp) t = if t = i then tp.elementWiseOnly else flagOf w t := by
  by_cases h : t = i <;> simp [flagOf, setTape, h]

lemma nodesOf_setTape (w : World) (i : Nat) (tp : WengertList) (t : Nat) :
    nodesOf (setTape w i tp) t = if t = i then tp.nodes else nodesOf w t := by
  by_cases h : t = i <;> simp [nodesOf, setTape, h]

lemma flagOf_appendNode (w : World) (h : Option Nat) (n : Node) (v : Mat) (t : Nat) :
    flagOf (appendNode w h n v).1 t = flagOf w t := by
  cases h with
  | none => rfl
  | some i =>
    by_cases ht : t = i <;> simp [appendNode, setTape, flagOf, ht]

lemma tapes_appendNode_ne (w : World) (i : Nat) (n : Node) (v : Mat) (s : Nat)
    (hs : s ≠ i) : (appendNode w (some i) n v).1.tapes s = w.tapes s := by
  simp [appendNode, setTape, hs]

lemma nodesOf_appendNode_eq (w : World) (i : Nat) (n : Node) (v : Mat) :
    nodesOf (appendNode w (some i) n v).1 i = nodesOf w i ++ [n] := by
  simp [appendNode, setTape, nodesOf]

lemma clearFlag_some (w : World) (i : Nat) :
    clearFlag w (some i) = some (setTape w i { w.tapes i with elementWiseOnly := false }) :=
  rfl

/-- The div/mod arithmetic of a row-major linear index. -/
lemma rowMajor_divmod (c r i : Nat) (hi : i < c) :
    (r * c + i) / c = r ∧ (r * c + i) % c = i := by
  have hc : 0 < c := Nat.pos_of_ne_zero (by omega)
  constructor
  · rw [Nat.mul_comm r c, Nat.mul_add_div hc, Nat.div_eq_of_lt hi]
    omega
  · rw [Nat.mul_comm r c, Nat.mul_add_mod, Nat.mod_eq_of_lt hi]

/-- Reindex a sum over a flattened column-major index range as a double sum. -/
lemma sum_range_divmod (kr kc : Nat) (f : Nat → Nat → ℚ) :
    ∑ h ∈ Finset.range (kr * kc), f (h % kr) (h / kr)
      = ∑ r ∈ Finset.range kr, ∑ c ∈ Finset.range kc, f r c := by
  rw [← Finset.sum_product' (Finset.range kr) (Finset.range kc) f]
  refine Finset.sum_nbij' (fun h => (h % kr, h / kr)) (fun p => kr * p.2 + p.1)
    ?_ ?_ ?_ ?_ ?_
  · intro a ha
    rw [Finset.mem_range] at ha
    have hkr : 0 < kr := by
      rcases Nat.eq_zero_or_pos kr with h0 | h0
      · subst h0
        simp at ha
      · exact h0
    rw [Finset.mem_product, Finset.mem_range, Finset.mem_range]
    refine ⟨Nat.mod_lt a hkr, ?_⟩
    refine (Nat.div_lt_iff_lt_mul hkr).mpr ?_
    rw [Nat.mul_comm kc kr]
    exact ha
  · intro p hp
    rw [Finset.mem_product, Finset.mem_range, Finset.mem_range] at hp
    rw [Finset.mem_range]
    calc kr * p.2 + p.1 < kr * p.2 + kr := by omega
    _ = kr * (p.2 + 1) := by ring
    _ ≤ kr * kc := Nat.mul_le_mul_left kr hp.2
  · intro a _
    exact Nat.div_add_mod a kr
  · intro p hp
    rw [Finset.mem_product, Finset.mem_range, Finset.mem_range] at hp
    have hkr : 0 < kr := by omega
    have h1 : (kr * p.2 + p.1) % kr = p.1 := by
      rw [Nat.mul_add_mod, Nat.mod_eq_of_lt hp.1]
    have h2 : (kr * p.2 + p.1) / kr = p.2 := by
      rw [Nat.mul_add_div hkr, Nat.div_eq_of_lt hp.1]
      omega
    simp [h1, h2]
  · intro a _
    rfl

-- Claim theorems

/-- C10: when any of the binary elementwise primitives (+, −, ⊙, ÷) or
matProd fails its validation (operands on different tapes or with
incompatible shapes), the world is returned unchanged together with the
sentinel: no node is appended to any tape, every tape keeps its size and
its elementWiseOnly flag (error atomicity for these five primitives). -/
theorem C10_error_atomicity :
    (∀ w x y, x.wList ≠ y.wList ∨ x.value.rows ≠ y.value.rows ∨
        x.value.cols ≠ y.value.cols → addT w x y = (w, sentinelT)) ∧
    (∀ w x y, x.wList ≠ y.wList ∨ x.value.rows ≠ y.value.rows ∨
        x.value.cols ≠ y.value.cols → subT w x y = (w, sentinelT)) ∧
    (∀ w x y, x.wList ≠ y.wList ∨ x.value.rows ≠ y.value.rows ∨
        x.value.cols ≠ y.value.cols → mulT w x y = (w, sentinelT)) ∧
    (∀ w x y, x.wList ≠ y.wList ∨ x.value.rows ≠ y.value.rows ∨
        x.value.cols ≠ y.value.cols → divT w x y = (w, sentinelT)) ∧
    (∀ w x y, x.wList ≠ y.wList ∨ x.value.cols ≠ y.value.rows →
        matProdT w x y = some (w, sentinelT)) := by
  refine ⟨?_, ?_, ?_, ?_, ?_⟩ <;>
    · intro w x y h
      simp only [addT, subT, mulT, divT, matProdT, if_pos h]

/-- Closed instance of C10 at concrete inputs: a 1×1 and a 1×2 tracked
matrix on the same tape (shape mismatch) for the elementwise primitives,
and a 1×1 against a 2×1 (inner dimension mismatch) for matProd. -/
theorem C10_error_atomicity_witness :
    addT wC tA tWide = (wC, sentinelT) ∧
    subT wC tA tWide = (wC, sentinelT) ∧
    mulT wC tA tWide = (wC, sentinelT) ∧
    divT wC tA tWide = (wC, sentinelT) ∧
    matProdT wC tA tTall = some (wC, sentinelT) := by
  obtain ⟨h1, h2, h3, h4, h5⟩ := C10_error_atomicity
  exact ⟨h1 wC tA tWide (by decide), h2 wC tA tWide (by decide),
    h3 wC tA tWide (by decide), h4 wC tA tWide (by decide),
    h5 wC tA tTall (by decide)⟩

/-- C7: matProd(x, y), for tracked matrices x on tape tx and y on tape ty,
fails with the error sentinel if and only if x and y are on different
tapes (tx ≠ ty) or cols(x) ≠ rows(y); otherwise it returns the matrix
product x·y of shape (rows(x), cols(y)), appends a node storing yᵀ as
local factor 0 and xᵀ as local factor 1, and clears the elementWiseOnly
flag of the tape.  (The success branch returns a tracked matrix whose
tape handle is non-null, so the two branches are exclusive.) -/
theorem C7_matProd (w : World) (x y : Tensor) (tx ty : Nat)
    (hx : x.wList = some tx) (hy : y.wList = some ty) :
    (tx ≠ ty ∨ x.value.cols ≠ y.value.rows → matProdT w x y = some (w, sentinelT)) ∧
    (tx = ty → x.value.cols = y.value.rows →
      ∃ p n, matProdT w x y = some p ∧
        p.2.wList = some tx ∧
        p.2.value.rows = x.value.rows ∧
        p.2.value.cols = y.value.cols ∧
        (∀ i < x.value.rows, ∀ j < y.value.cols,
          p.2.value.entry i j =
            ∑ k ∈ Finset.range x.value.cols, x.value.entry i k * y.value.entry k j) ∧
        nodesOf p.1 tx = nodesOf w tx ++ [n] ∧
        n.values.length = 2 ∧
        (n.values.getD 0 emptyM).rows = y.value.cols ∧
        (n.values.getD 0 emptyM).cols = y.value.rows ∧
        (∀ r < y.value.cols, ∀ c < y.value.rows,
          (n.values.getD 0 emptyM).entry r c = y.value.entry c r) ∧
        (n.values.getD 1 emptyM).rows = x.value.cols ∧
        (n.values.getD 1 emptyM).cols = x.value.rows ∧
        (∀ r < x.value.cols, ∀ c < x.value.rows,
          (n.values.getD 1 emptyM).entry r c = x.value.entry c r) ∧
        flagOf p.1 tx = false ∧
        (∀ s, s ≠ tx → p.1.tapes s = w.tapes s)) := by
  constructor
  · intro hfail
    rcases hfail with htt | hne
    · have hlists : x.wList ≠ y.wList := by
        rw [hx, hy]
        simp [htt]
      simp only [matProdT, if_pos (Or.inl hlists)]
    · simp only [matProdT, if_pos (Or.inr hne)]
  · intro htt hc
    subst htt
    have hcond : ¬(x.wList ≠ y.wList ∨ x.value.cols ≠ y.value.rows) := by
      simp [hx, hy, hc]
    unfold matProdT
    rw [if_neg hcond, hx, clearFlag_some]
    refine ⟨_,
      { rows := x.value.rows, cols := y.value.cols,
        operationType := .matrixProduct,
        values := [transposeM y.value, transposeM x.value],
        dependencies := [x.index, y.index] },
      rfl, ?_, rfl, rfl, fun i _ j _ => rfl, ?_, rfl, rfl, rfl,
      fun r _ c _ => rfl, rfl, rfl, fun r _ c _ => rfl, ?_, ?_⟩
    · simp [appendNode]
    · rw [nodesOf_appendNode_eq]
      simp [nodesOf, setTape]
    · rw [flagOf_appendNode]
      simp [flagOf, setTape]
    · intro s hs
      rw [tapes_appendNode_ne _ _ _ _ _ hs]
      simp [setTape, hs]

/-- Closed instance of C7 at concrete tracked matrices of the concrete
world: the tape-mismatch failing arm (operand on tape 1 against tape 0),
the inner-dimension failing arm (1×1 against 2×1 on tape 0), and the
succeeding arm. -/
theorem C7_matProd_witness :
    matProdT wC tA tOther = some (wC, sentinelT) ∧
    matProdT wC tA tTall = some (wC, sentinelT) ∧
    (∃ p n, matProdT wC tA tB = some p ∧
      p.2.wList = some 0 ∧
      p.2.value.rows = tA.value.rows ∧
      p.2.value.cols = tB.value.cols ∧
      (∀ i < tA.value.rows, ∀ j < tB.value.cols,
        p.2.value.entry i j =
          ∑ k ∈ Finset.range tA.value.cols, tA.value.entry i k * tB.value.entry k j) ∧
      nodesOf p.1 0 = nodesOf wC 0 ++ [n] ∧
      n.values.length = 2 ∧
      (n.values.getD 0 emptyM).rows = tB.value.cols ∧
      (n.values.getD 0 emptyM).cols = tB.value.rows ∧
      (∀ r < tB.value.cols, ∀ c < tB.value.rows,
        (n.values.getD 0 emptyM).entry r c = tB.value.entry c r) ∧
      (n.values.getD 1 emptyM).rows = tA.value.cols ∧
      (n.values.getD 1 emptyM).cols = tA.value.rows ∧
      (∀ r < tA.value.cols, ∀ c < tA.value.rows,
        (n.values.getD 1 emptyM).entry r c = tA.value.entry c r) ∧
      flagOf p.1 0 = false ∧
      (∀ s, s ≠ 0 → p.1.tapes s = wC.tapes s)) :=
  ⟨(C7_matProd wC tA tOther 0 1 rfl rfl).1 (Or.inl (by decide)),
   (C7_matProd wC tA tTall 0 0 rfl rfl).1 (Or.inr (by decide)),
   (C7_matProd wC tA tB 0 0 rfl rfl).2 rfl (by decide)⟩

/-- C5: for every pair of matrices mat and ker with rows(mat) ≥ rows(ker)
and cols(mat) ≥ cols(ker), the naive sliding-window convolution convArray
and the im2col-based im2conv return equal matrices of shape
(rows(mat) − rows(ker) + 1, cols(mat) − cols(ker) + 1), each entry being
the valid cross-correlation value. -/
theorem C5_conv_refinement (mat ker : Mat)
    (h1 : ker.rows ≤ mat.rows) (h2 : ker.cols ≤ mat.cols) :
    (convArray mat ker).rows = mat.rows - ker.rows + 1 ∧
    (convArray mat ker).cols = mat.cols - ker.cols + 1 ∧
    (im2conv mat ker).rows = mat.rows - ker.rows + 1 ∧
    (im2conv mat ker).cols = mat.cols - ker.cols + 1 ∧
    (∀ j < mat.rows - ker.rows + 1, ∀ i < mat.cols - ker.cols + 1,
      (convArray mat ker).entry j i =
        ∑ r ∈ Finset.range ker.rows, ∑ c ∈ Finset.range ker.cols,
          mat.entry (j + r) (i + c) * ker.entry r c) ∧
    MatEq (convArray mat ker) (im2conv mat ker) := by
  have hcond : ¬(mat.rows < ker.rows ∨ mat.cols < ker.cols) := by omega
  unfold convArray im2conv
  rw [if_neg hcond, if_neg hcond]
  refine ⟨rfl, rfl, rfl, rfl, fun j hj i hi => rfl, rfl, rfl, ?_⟩
  intro j hj i hi
  obtain ⟨hd, hm⟩ := rowMajor_divmod (mat.cols - ker.cols + 1) j i hi
  simp only [reshapeRowMajor, matMulM, im2colMat, flattenColMajor, hd, hm]
  exact (sum_range_divmod ker.rows ker.cols
    (fun r c => mat.entry (j + r) (i + c) * ker.entry r c)).symm

/-- Closed instance of C5 at a concrete 3×3 matrix and 2×2 kernel. -/
theorem C5_conv_refinement_witness :
    (convArray m33 k22).rows = 2 ∧ (convArray m33 k22).cols = 2 ∧
    (im2conv m33 k22).rows = 2 ∧ (im2conv m33 k22).cols = 2 ∧
    (∀ j < 2, ∀ i < 2,
      (convArray m33 k22).entry j i =
        ∑ r ∈ Finset.range k22.rows, ∑ c ∈ Finset.range k22.cols,
          m33.entry (j + r) (i + c) * k22.entry r c) ∧
    MatEq (convArray m33 k22) (im2conv m33 k22) :=
  C5_conv_refinement m33 k22 (by decide) (by decide)

/-- C6: every convolution(mat, ker) call that passes validation appends a
node whose stored factor for slot mat is a zero matrix of shape
(2·out_rows + ker_rows − 2, 2·out_cols + ker_cols − 2) whose
(ker_rows, ker_cols) block at offset (out_rows − 1, out_cols − 1) is ker
reversed along both axes, and whose stored factor for slot ker is the
original mat. -/
theorem C6_convolution_node (w : World) (mat ker : Tensor) (t : Nat)
    (hm : mat.wList = some t) (hk : ker.wList = some t)
    (h1 : ker.value.rows ≤ mat.value.rows) (h2 : ker.value.cols ≤ mat.value.cols) :
    ∃ p n, convolutionT w mat ker = some p ∧
      nodesOf p.1 t = nodesOf w t ++ [n] ∧
      n.values.length = 2 ∧
      n.values.getD 1 emptyM = mat.value ∧
      (n.values.getD 0 emptyM).rows =
        2 * (mat.value.rows - ker.value.rows + 1) + ker.value.rows - 2 ∧
      (n.values.getD 0 emptyM).cols =
        2 * (mat.value.cols - ker.value.cols + 1) + ker.value.cols - 2 ∧
      (∀ r < (n.values.getD 0 emptyM).rows, ∀ c < (n.values.getD 0 emptyM).cols,
        (n.values.getD 0 emptyM).entry r c =
          if (mat.value.rows - ker.value.rows + 1) - 1 ≤ r ∧
              r < (mat.value.rows - ker.value.rows + 1) - 1 + ker.value.rows ∧
              (mat.value.cols - ker.value.cols + 1) - 1 ≤ c ∧
              c < (mat.value.cols - ker.value.cols + 1) - 1 + ker.value.cols then
            ker.value.entry
              (ker.value.rows - 1 - (r - ((mat.value.rows - ker.value.rows + 1) - 1)))
              (ker.value.cols - 1 - (c - ((mat.value.cols - ker.value.cols + 1) - 1)))
          else 0) := by
  have hcond : ¬(mat.wList ≠ ker.wList ∨ mat.value.rows < ker.value.rows ∨
      mat.value.cols < ker.value.cols) := by
    simp [hm, hk]
    omega
  have hshape : ¬(mat.value.rows < ker.value.rows ∨ mat.value.cols < ker.value.cols) := by
    omega
  unfold convolutionT
  rw [if_neg hcond, hm, clearFlag_some]
  refine ⟨_,
    { rows := (convArray mat.value ker.value).rows,
      cols := (convArray mat.value ker.value).cols,
      operationType := .convolutionOp,
      values := [convDMat (convArray mat.value ker.value).rows
                   (convArray mat.value ker.value).cols ker.value,
                 mat.value],
      dependencies := [mat.index, ker.index] },
    rfl, ?_, rfl, rfl, ?_, ?_, ?_⟩
  · rw [nodesOf_appendNode_eq]
    simp [nodesOf, setTape]
  · simp only [List.getD, convDMat, setBlock, zeroM, convArray, if_neg hshape]
    rfl
  · simp only [List.getD, convDMat, setBlock, zeroM, convArray, if_neg hshape]
    rfl
  · intro r hr c hc
    simp only [List.getD, convDMat, setBlock, reverse2, zeroM, convArray, if_neg hshape]
    rfl

/-- Closed instance of C6 at the concrete 3×3 matrix and 2×2 kernel on
tape 0 of the concrete world. -/
theorem C6_convolution_node_witness :
    ∃ p n, convolutionT wC tM33 tK22 = some p ∧
      nodesOf p.1 0 = nodesOf wC 0 ++ [n] ∧
      n.values.length = 2 ∧
      n.values.getD 1 emptyM = tM33.value ∧
      (n.values.getD 0 emptyM).rows =
        2 * (tM33.value.rows - tK22.value.rows + 1) + tK22.value.rows - 2 ∧
      (n.values.getD 0 emptyM).cols =
        2 * (tM33.value.cols - tK22.value.cols + 1) + tK22.value.cols - 2 ∧
      (∀ r < (n.values.getD 0 emptyM).rows, ∀ c < (n.values.getD 0 emptyM).cols,
        (n.values.getD 0 emptyM).entry r c =
          if (tM33.value.rows - tK22.value.rows + 1) - 1 ≤ r ∧
              r < (tM33.value.rows - tK22.value.rows + 1) - 1 + tK22.value.rows ∧
              (tM33.value.cols - tK22.value.cols + 1) - 1 ≤ c ∧
              c < (tM33.value.cols - tK22.value.cols + 1) - 1 + tK22.value.cols then
            tK22.value.entry
              (tK22.value.rows - 1 - (r - ((tM33.value.rows - tK22.value.rows + 1) - 1)))
              (tK22.value.cols - 1 - (c - ((tM33.value.cols - tK22.value.cols + 1) - 1)))
          else 0) :=
  C6_convolution_node wC tM33 tK22 0 rfl rfl (by decide) (by decide)

/-- C8: flattening(x) returns a column vector of shape (r·c, 1) containing
the entries of x in row-major order and appends a node storing the original
shape (r, c); the flatten reverse-sweep step reshapes any column vector
back to (r, c) in row-major order, and composed with the forward
flattening it is the identity on (r, c) matrices. -/
theorem C8_flattening_roundtrip (w : World) (x : Tensor) (t : Nat)
    (hx : x.wList = some t) :
    ∃ p n, flatteningT w x = some p ∧
      p.2.value.rows = x.value.rows * x.value.cols ∧
      p.2.value.cols = 1 ∧
      (∀ r < x.value.rows, ∀ c < x.value.cols,
        p.2.value.entry (r * x.value.cols + c) 0 = x.value.entry r c) ∧
      nodesOf p.1 t = nodesOf w t ++ [n] ∧
      n.origSize = [x.value.rows, x.value.cols] ∧
      (∀ d : Mat, ∀ j < x.value.rows, ∀ i < x.value.cols,
        (flattenIncGrad x.value.rows x.value.cols d).entry j i =
          d.entry (j * x.value.cols + i) 0) ∧
      MatEq (flattenIncGrad x.value.rows x.value.cols (flatteningVal x.value)) x.value := by
  unfold flatteningT
  rw [hx, clearFlag_some]
  refine ⟨_,
    { rows := x.value.rows * x.value.cols, cols := 1,
      operationType := .flatteningOp,
      values := [emptyM], dependencies := [x.index],
      origSize := [x.value.rows, x.value.cols] },
    rfl, rfl, rfl, ?_, ?_, rfl, fun d j _ i _ => rfl, rfl, rfl, ?_⟩
  · intro r hr c hc
    obtain ⟨hd, hm⟩ := rowMajor_divmod x.value.cols r c hc
    simp only [appendNode, flatteningVal, hd, hm]
  · rw [nodesOf_appendNode_eq]
    simp [nodesOf, setTape]
  · intro j hj i hi
    obtain ⟨hd, hm⟩ := rowMajor_divmod x.value.cols j i hi
    simp only [flattenIncGrad, flatteningVal, hd, hm]

/-- Closed instance of C8 at the concrete 2×2 tracked matrix on tape 0. -/
theorem C8_flattening_roundtrip_witness :
    ∃ p n, flatteningT wC tX22 = some p ∧
      p.2.value.rows = tX22.value.rows * tX22.value.cols ∧
      p.2.value.cols = 1 ∧
      (∀ r < tX22.value.rows, ∀ c < tX22.value.cols,
        p.2.value.entry (r * tX22.value.cols + c) 0 = tX22.value.entry r c) ∧
      nodesOf p.1 0 = nodesOf wC 0 ++ [n] ∧
      n.origSize = [tX22.value.rows, tX22.value.cols] ∧
      (∀ d : Mat, ∀ j < tX22.value.rows, ∀ i < tX22.value.cols,
        (flattenIncGrad tX22.value.rows tX22.value.cols d).entry j i =
          d.entry (j * tX22.value.cols + i) 0) ∧
      MatEq (flattenIncGrad tX22.value.rows tX22.value.cols
        (flatteningVal tX22.value)) tX22.value :=
  C8_flattening_roundtrip wC tX22 0 rfl

/-- C1: evaluation of the division primitive at the failing input
x = [[4]], y = [[2]] on one tape.  The source computes the forward value as
x.value + y.value, so the result is [[6]], while the pointwise quotient
demanded by the claim is [[2]].  (The stored local factors do follow the
claim; the forward value does not.) -/
theorem C1_division_forward_bug :
    (divT wC tA tB).2.value.entry 0 0 = tA.value.entry 0 0 + tB.value.entry 0 0 ∧
    (divT wC tA tB).2.value.entry 0 0 = 6 ∧
    tA.value.entry 0 0 / tB.value.entry 0 0 = 2 ∧
    (6 : ℚ) ≠ 2 := by
  refine ⟨rfl, ?_, ?_, ?_⟩ <;>
    norm_num [divT, wC, tA, tB, cwise2, ofLists, appendNode]

/-- C2: evaluation of maxPooling at the failing input x = (0, 0, 0, 5)ᵀ
(a 4×1 matrix) with pool = (2, 1), which satisfies the preconditions of
the claim.  Under the pinned convention the window of output cell
(1, 0) is rows {2, 3}, with maximum 5 attained at (3, 0); the source scans
rows {1, 2} there (it strides rows by pool[1] in the inner loops), so it
returns 0 for that cell and places the mask 1 at (2, 0) instead of (3, 0). -/
theorem C2_maxPooling_bug :
    xPool.rows % 2 = 0 ∧ xPool.cols % 1 = 0 ∧
    (maxPoolingRes xPool 2 1).entry 1 0 = 0 ∧
    poolWindowMaxSpec xPool 2 1 1 0 = 5 ∧
    (0 : ℚ) ≠ 5 ∧
    (maxPoolingMask xPool 2 1).entry 2 0 = 1 ∧
    (maxPoolingMask xPool 2 1).entry 3 0 = 0 := by
  have hscan0 : (poolScan xPool 2 1 0 0).xMax = 0 ∧ (poolScan xPool 2 1 0 0).yMax = 0 := by
    norm_num [poolScan, poolScanStep, xPool, ofLists, List.range, List.range.loop]
  have hscan1 : (poolScan xPool 2 1 1 0).xMax = 2 ∧ (poolScan xPool 2 1 1 0).yMax = 0 := by
    norm_num [poolScan, poolScanStep, xPool, ofLists, List.range, List.range.loop]
  refine ⟨by decide, by decide, ?_, ?_, by norm_num, ?_, ?_⟩
  · norm_num [maxPoolingRes, poolScan, poolScanStep, xPool, ofLists,
      List.range, List.range.loop]
  · norm_num [poolWindowMaxSpec, xPool, ofLists, List.range, List.range.loop]
  · have hex : ∃ i < xPool.cols / 1, ∃ j < xPool.rows / 2,
        (poolScan xPool 2 1 j i).xMax = 2 ∧ (poolScan xPool 2 1 j i).yMax = 0 :=
      ⟨0, by norm_num [xPool, ofLists], 1, by norm_num [xPool, ofLists],
        hscan1.1, hscan1.2⟩
    simp only [maxPoolingMask]
    exact if_pos hex
  · have hnex : ¬ ∃ i < xPool.cols / 1, ∃ j < xPool.rows / 2,
        (poolScan xPool 2 1 j i).xMax = 3 ∧ (poolScan xPool 2 1 j i).yMax = 0 := by
      rintro ⟨i, hi, j, hj, hx3, _⟩
      have hi1 : i = 0 := by
        revert hi
        norm_num [xPool, ofLists]
      have hj2 : j < 2 := by
        revert hj
        norm_num [xPool, ofLists]
      subst hi1
      interval_cases j
      · omega
      · omega
    simp only [maxPoolingMask]
    exact if_neg hnex

/-- C9: at the input shape 2×4 with pool = (1, 2), which satisfies
the preconditions of maxPooling, the forward scan reads x(2, 0): the row index
equals rows(x), an out-of-bounds read, because the inner loops stride rows
by pool[1] instead of pool[0]. -/
theorem C9_maxPooling_oob_read :
    (zeroM 2 4).rows % 1 = 0 ∧ (zeroM 2 4).cols % 2 = 0 ∧
    poolReads (zeroM 2 4).rows (zeroM 2 4).cols 1 2 2 0 ∧
    ¬(2 < (zeroM 2 4).rows) := by
  decide

/-- C3 counterexample: vertCat applied to two tracked matrices on the same
tape with unequal column counts (a 1×1 and a 1×2) fails its validation and
appends no node, yet the elementWiseOnly flag of the tape — true beforehand —
is cleared, because the source clears it before running the checks.  This
refutes the claim that a failing primitive call leaves the flag unchanged. -/
theorem C3_flag_clear_on_failed_vertCat :
    flagOf wC 0 = true ∧
    (vertCatT wC [tA, tWide]).map
      (fun p => (flagOf p.1 0, (nodesOf p.1 0).length, p.2.wList)) =
      some (false, 2, none) ∧
    (nodesOf wC 0).length = 2 := by
  decide

/-- C3 (amended): the elementWiseOnly flag starts true; the elementwise
primitives (+, −, ⊙, ÷, sigmoid) never change any flag; the non-elementwise
primitives (matProd, squaredNorm, convolution, maxPooling, vertCat,
flattening) clear the flag of the operand tape exactly when they append — with
the single exception of vertCat, which on a non-empty operand list clears
the flag of the tape of x[0] before validating, so a failing vertCat still
clears it (vertCat on an empty list leaves the world unchanged).  A
primitive that fails validation otherwise leaves the world unchanged, and
no primitive ever sets a flag back to true (the listed cases cover every
terminating call). -/
theorem C3_elementwise_flag_lifecycle :
    newWList.elementWiseOnly = true ∧
    (∀ w x y t, flagOf (addT w x y).1 t = flagOf w t) ∧
    (∀ w x y t, flagOf (subT w x y).1 t = flagOf w t) ∧
    (∀ w x y t, flagOf (mulT w x y).1 t = flagOf w t) ∧
    (∀ w x y t, flagOf (divT w x y).1 t = flagOf w t) ∧
    (∀ f w x t, flagOf (sigmoidT f w x).1 t = flagOf w t) ∧
    (∀ w x y, x.wList ≠ y.wList ∨ x.value.cols ≠ y.value.rows →
      matProdT w x y = some (w, sentinelT)) ∧
    (∀ w x y t, x.wList = some t → y.wList = some t → x.value.cols = y.value.rows →
      ∃ p, matProdT w x y = some p ∧ flagOf p.1 t = false ∧
        (nodesOf p.1 t).length = (nodesOf w t).length + 1 ∧
        ∀ s, s ≠ t → p.1.tapes s = w.tapes s) ∧
    (∀ w x y, x.wList ≠ y.wList ∨ x.value.rows < y.value.rows ∨
        x.value.cols < y.value.cols →
      convolutionT w x y = some (w, sentinelT)) ∧
    (∀ w x y t, x.wList = some t → y.wList = some t →
      y.value.rows ≤ x.value.rows → y.value.cols ≤ x.value.cols →
      ∃ p, convolutionT w x y = some p ∧ flagOf p.1 t = false ∧
        (nodesOf p.1 t).length = (nodesOf w t).length + 1 ∧
        ∀ s, s ≠ t → p.1.tapes s = w.tapes s) ∧
    (∀ w x pool, pool.length ≠ 2 ∨ x.value.rows % pool.getD 0 0 ≠ 0 ∨
        x.value.cols % pool.getD 1 0 ≠ 0 →
      maxPoolingT w x pool = some (w, sentinelT)) ∧
    (∀ w x pool t, x.wList = some t → pool.length = 2 →
      x.value.rows % pool.getD 0 0 = 0 → x.value.cols % pool.getD 1 0 = 0 →
      ∃ p, maxPoolingT w x pool = some p ∧ flagOf p.1 t = false ∧
        (nodesOf p.1 t).length = (nodesOf w t).length + 1 ∧
        ∀ s, s ≠ t → p.1.tapes s = w.tapes s) ∧
    (∀ w x t, x.wList = some t →
      ∃ p, squaredNormT w x = some p ∧ flagOf p.1 t = false ∧
        (nodesOf p.1 t).length = (nodesOf w t).length + 1 ∧
        ∀ s, s ≠ t → p.1.tapes s = w.tapes s) ∧
    (∀ w x t, x.wList = some t →
      ∃ p, flatteningT w x = some p ∧ flagOf p.1 t = false ∧
        (nodesOf p.1 t).length = (nodesOf w t).length + 1 ∧
        ∀ s, s ≠ t → p.1.tapes s = w.tapes s) ∧
    (∀ w, vertCatT w [] = some (w, sentinelT)) ∧
    (∀ w x0 rest t, x0.wList = some t →
      ¬(∀ xi ∈ x0 :: rest, xi.value.cols = x0.value.cols ∧ xi.wList = x0.wList) →
      ∃ p, vertCatT w (x0 :: rest) = some p ∧ p.2 = sentinelT ∧
        flagOf p.1 t = false ∧ nodesOf p.1 t = nodesOf w t ∧
        ∀ s, s ≠ t → p.1.tapes s = w.tapes s) ∧
    (∀ w x0 rest t, x0.wList = some t →
      (∀ xi ∈ x0 :: rest, xi.value.cols = x0.value.cols ∧ xi.wList = x0.wList) →
      ∃ p, vertCatT w (x0 :: rest) = some p ∧ flagOf p.1 t = false ∧
        (nodesOf p.1 t).length = (nodesOf w t).length + 1 ∧
        ∀ s, s ≠ t → p.1.tapes s = w.tapes s) := by
  refine ⟨rfl, ?_, ?_, ?_, ?_, ?_, ?_, ?_, ?_, ?_, ?_, ?_, ?_, ?_, ?_, ?_, ?_⟩
  · intro w x y t
    unfold addT
    split
    · rfl
    · exact flagOf_appendNode w x.wList _ _ t
  · intro w x y t
    unfold subT
    split
    · rfl
    · exact flagOf_appendNode w x.wList _ _ t
  · intro w x y t
    unfold mulT
    split
    · rfl
    · exact flagOf_appendNode w x.wList _ _ t
  · intro w x y t
    unfold divT
    split
    · rfl
    · exact flagOf_appendNode w x.wList _ _ t
  · intro f w x t
    exact flagOf_appendNode w x.wList _ _ t
  · intro w x y h
    simp only [matProdT, if_pos h]
  · intro w x y t hx hy hc
    have hcond : ¬(x.wList ≠ y.wList ∨ x.value.cols ≠ y.value.rows) := by
      simp [hx, hy, hc]
    unfold matProdT
    rw [if_neg hcond, hx, clearFlag_some]
    refine ⟨_, rfl, ?_, ?_, ?_⟩
    · rw [flagOf_appendNode]
      simp [flagOf, setTape]
    · rw [nodesOf_appendNode_eq]
      simp [nodesOf, setTape]
    · intro s hs
      rw [tapes_appendNode_ne _ _ _ _ _ hs]
      simp [setTape, hs]
  · intro w x y h
    simp only [convolutionT, if_pos h]
  · intro w x y t hx hy h1 h2
    have hcond : ¬(x.wList ≠ y.wList ∨ x.value.rows < y.value.rows ∨
        x.value.cols < y.value.cols) := by
      simp [hx, hy]
      omega
    unfold convolutionT
    rw [if_neg hcond, hx, clearFlag_some]
    refine ⟨_, rfl, ?_, ?_, ?_⟩
    · rw [flagOf_appendNode]
      simp [flagOf, setTape]
    · rw [nodesOf_appendNode_eq]
      simp [nodesOf, setTape]
    · intro s hs
      rw [tapes_appendNode_ne _ _ _ _ _ hs]
      simp [setTape, hs]
  · intro w x pool h
    rcases h with h | h | h
    · simp only [maxPoolingT, if_pos h]
    · unfold maxPoolingT
      split
      · rfl
      · rw [if_pos (Or.inl h)]
    · unfold maxPoolingT
      split
      · rfl
      · rw [if_pos (Or.inr h)]
  · intro w x pool t hx hlen h0 h1
    have hlen2 : ¬(pool.length ≠ 2) := by omega
    have hmod : ¬(x.value.rows % pool.getD 0 0 ≠ 0 ∨
        x.value.cols % pool.getD 1 0 ≠ 0) := by
      push_neg
      exact ⟨h0, h1⟩
    unfold maxPoolingT
    rw [if_neg hlen2, if_neg hmod, hx, clearFlag_some]
    refine ⟨_, rfl, ?_, ?_, ?_⟩
    · rw [flagOf_appendNode]
      simp [flagOf, setTape]
    · rw [nodesOf_appendNode_eq]
      simp [nodesOf, setTape]
    · intro s hs
      rw [tapes_appendNode_ne _ _ _ _ _ hs]
      simp [setTape, hs]
  · intro w x t hx
    unfold squaredNormT
    rw [hx, clearFlag_some]
    refine ⟨_, rfl, ?_, ?_, ?_⟩
    · rw [flagOf_appendNode]
      simp [flagOf, setTape]
    · rw [nodesOf_appendNode_eq]
      simp [nodesOf, setTape]
    · intro s hs
      rw [tapes_appendNode_ne _ _ _ _ _ hs]
      simp [setTape, hs]
  · intro w x t hx
    unfold flatteningT
    rw [hx, clearFlag_some]
    refine ⟨_, rfl, ?_, ?_, ?_⟩
    · rw [flagOf_appendNode]
      simp [flagOf, setTape]
    · rw [nodesOf_appendNode_eq]
      simp [nodesOf, setTape]
    · intro s hs
      rw [tapes_appendNode_ne _ _ _ _ _ hs]
      simp [setTape, hs]
  · intro w
    rfl
  · intro w x0 rest t hx hbad
    rw [hx] at hbad
    simp only [vertCatT]
    rw [hx, clearFlag_some]
    refine ⟨_, rfl, ?_⟩
    simp only [if_neg hbad]
    refine ⟨trivial, ?_, ?_, ?_⟩
    · simp [flagOf, setTape]
    · simp [nodesOf, setTape]
    · intro s hs
      simp [setTape, hs]
  · intro w x0 rest t hx hok
    rw [hx] at hok
    simp only [vertCatT]
    rw [hx, clearFlag_some]
    refine ⟨_, rfl, ?_⟩
    simp only [if_pos hok]
    refine ⟨?_, ?_, ?_⟩
    · rw [flagOf_appendNode]
      simp [flagOf, setTape]
    · rw [nodesOf_appendNode_eq]
      simp [nodesOf, setTape]
    · intro s hs
      rw [tapes_appendNode_ne _ _ _ _ _ hs]
      simp [setTape, hs]

/-- Closed instance of C3 (amended), instantiating every hypothesis-bearing
conjunct at concrete inputs on tape 0 of the concrete world. -/
theorem C3_elementwise_flag_lifecycle_witness :
    matProdT wC tA tTall = some (wC, sentinelT) ∧
    (∃ p, matProdT wC tA tB = some p ∧ flagOf p.1 0 = false ∧
      (nodesOf p.1 0).length = (nodesOf wC 0).length + 1 ∧
      ∀ s, s ≠ 0 → p.1.tapes s = wC.tapes s) ∧
    convolutionT wC tA tWide = some (wC, sentinelT) ∧
    (∃ p, convolutionT wC tM33 tK22 = some p ∧ flagOf p.1 0 = false ∧
      (nodesOf p.1 0).length = (nodesOf wC 0).length + 1 ∧
      ∀ s, s ≠ 0 → p.1.tapes s = wC.tapes s) ∧
    maxPoolingT wC tA [3] = some (wC, sentinelT) ∧
    (∃ p, maxPoolingT wC tA [1, 1] = some p ∧ flagOf p.1 0 = false ∧
      (nodesOf p.1 0).length = (nodesOf wC 0).length + 1 ∧
      ∀ s, s ≠ 0 → p.1.tapes s = wC.tapes s) ∧
    (∃ p, squaredNormT wC tA = some p ∧ flagOf p.1 0 = false ∧
      (nodesOf p.1 0).length = (nodesOf wC 0).length + 1 ∧
      ∀ s, s ≠ 0 → p.1.tapes s = wC.tapes s) ∧
    (∃ p, flatteningT wC tA = some p ∧ flagOf p.1 0 = false ∧
      (nodesOf p.1 0).length = (nodesOf wC 0).length + 1 ∧
      ∀ s, s ≠ 0 → p.1.tapes s = wC.tapes s) ∧
    (∃ p, vertCatT wC (tA :: [tWide]) = some p ∧ p.2 = sentinelT ∧
      flagOf p.1 0 = false ∧ nodesOf p.1 0 = nodesOf wC 0 ∧
      ∀ s, s ≠ 0 → p.1.tapes s = wC.tapes s) ∧
    (∃ p, vertCatT wC (tA :: [tB]) = some p ∧ flagOf p.1 0 = false ∧
      (nodesOf p.1 0).length = (nodesOf wC 0).length + 1 ∧
      ∀ s, s ≠ 0 → p.1.tapes s = wC.tapes s) := by
  obtain ⟨-, -, -, -, -, -, h7, h8, h9, h10, h11, h12, h13, h14, -, h16, h17⟩ :=
    C3_elementwise_flag_lifecycle
  exact ⟨h7 wC tA tTall (Or.inr (by decide)),
    h8 wC tA tB 0 rfl rfl (by decide),
    h9 wC tA tWide (Or.inr (Or.inr (by decide))),
    h10 wC tM33 tK22 0 rfl rfl (by decide) (by decide),
    h11 wC tA [3] (Or.inl (by decide)),
    h12 wC tA [1, 1] 0 rfl rfl (by decide) (by decide),
    h13 wC tA 0 rfl,
    h14 wC tA 0 rfl,
    h16 wC tA [tWide] 0 rfl (by decide),
    h17 wC tA [tB] 0 rfl (by decide)⟩

/-- C4 counterexample: flattening applied to the sentinel tracked matrix
does not return the sentinel; the source immediately writes through the
null tape handle of the sentinel (x.wList->elementWiseOnly = false), which is
undefined behaviour, modelled as `none`.  This refutes the claim that every
primitive, including unary ones such as flattening, short-circuits a
sentinel operand to the same sentinel. -/
theorem C4_flattening_sentinel_not_propagated :
    flatteningT wC sentinelT = none ∧
    ∀ p, flatteningT wC sentinelT ≠ some p := by
  refine ⟨rfl, ?_⟩
  intro p h
  exact Option.noConfusion h

/-- C4 (amended): every primitive validation failure produces the
detectable sentinel (null tape handle, 0×0 value); a binary primitive
applied to operands whose tape handles differ — in particular to exactly
one sentinel operand — short-circuits to the same sentinel; but the unary
primitives flattening and squaredNorm (and any primitive reaching its
flag-clearing write with a sentinel operand) dereference the null tape
handle instead of returning the sentinel. -/
theorem C4_sentinel_policy :
    (sentinelT.wList = none ∧ sentinelT.value.rows = 0 ∧ sentinelT.value.cols = 0) ∧
    (∀ w x y, x.wList ≠ y.wList ∨ x.value.rows ≠ y.value.rows ∨
        x.value.cols ≠ y.value.cols → addT w x y = (w, sentinelT)) ∧
    (∀ w x y, x.wList ≠ y.wList ∨ x.value.rows ≠ y.value.rows ∨
        x.value.cols ≠ y.value.cols → subT w x y = (w, sentinelT)) ∧
    (∀ w x y, x.wList ≠ y.wList ∨ x.value.rows ≠ y.value.rows ∨
        x.value.cols ≠ y.value.cols → mulT w x y = (w, sentinelT)) ∧
    (∀ w x y, x.wList ≠ y.wList ∨ x.value.rows ≠ y.value.rows ∨
        x.value.cols ≠ y.value.cols → divT w x y = (w, sentinelT)) ∧
    (∀ w x y, x.wList ≠ y.wList ∨ x.value.cols ≠ y.value.rows →
      matProdT w x y = some (w, sentinelT)) ∧
    (∀ w x y, x.wList ≠ y.wList ∨ x.value.rows < y.value.rows ∨
        x.value.cols < y.value.cols → convolutionT w x y = some (w, sentinelT)) ∧
    (∀ w x pool, pool.length ≠ 2 ∨ x.value.rows % pool.getD 0 0 ≠ 0 ∨
        x.value.cols % pool.getD 1 0 ≠ 0 → maxPoolingT w x pool = some (w, sentinelT)) ∧
    (∀ w, vertCatT w [] = some (w, sentinelT)) ∧
    (∀ w x0 rest t, x0.wList = some t →
      ¬(∀ xi ∈ x0 :: rest, xi.value.cols = x0.value.cols ∧ xi.wList = x0.wList) →
      ∃ p, vertCatT w (x0 :: rest) = some p ∧ p.2 = sentinelT) ∧
    (∀ w x y, x.wList ≠ y.wList → addT w x y = (w, sentinelT)) ∧
    (∀ w x y, x.wList ≠ y.wList → subT w x y = (w, sentinelT)) ∧
    (∀ w x y, x.wList ≠ y.wList → mulT w x y = (w, sentinelT)) ∧
    (∀ w x y, x.wList ≠ y.wList → divT w x y = (w, sentinelT)) ∧
    (∀ w x y, x.wList ≠ y.wList → matProdT w x y = some (w, sentinelT)) ∧
    (∀ w x y, x.wList ≠ y.wList → convolutionT w x y = some (w, sentinelT)) ∧
    (∀ w x, x.wList = none → flatteningT w x = none) ∧
    (∀ w x, x.wList = none → squaredNormT w x = none) := by
  refine ⟨⟨rfl, rfl, rfl⟩, ?_, ?_, ?_, ?_, ?_, ?_, ?_, ?_, ?_, ?_, ?_, ?_, ?_, ?_,
    ?_, ?_, ?_⟩
  · intro w x y h
    simp only [addT, if_pos h]
  · intro w x y h
    simp only [subT, if_pos h]
  · intro w x y h
    simp only [mulT, if_pos h]
  · intro w x y h
    simp only [divT, if_pos h]
  · intro w x y h
    simp only [matProdT, if_pos h]
  · intro w x y h
    simp only [convolutionT, if_pos h]
  · intro w x pool h
    rcases h with h | h | h
    · simp only [maxPoolingT, if_pos h]
    · unfold maxPoolingT
      split
      · rfl
      · rw [if_pos (Or.inl h)]
    · unfold maxPoolingT
      split
      · rfl
      · rw [if_pos (Or.inr h)]
  · intro w
    rfl
  · intro w x0 rest t hx hbad
    rw [hx] at hbad
    simp only [vertCatT]
    rw [hx, clearFlag_some]
    refine ⟨_, rfl, ?_⟩
    simp only [if_neg hbad]
  · intro w x y h
    simp only [addT, if_pos (Or.inl h)]
  · intro w x y h
    simp only [subT, if_pos (Or.inl h)]
  · intro w x y h
    simp only [mulT, if_pos (Or.inl h)]
  · intro w x y h
    simp only [divT, if_pos (Or.inl h)]
  · intro w x y h
    simp only [matProdT, if_pos (Or.inl h)]
  · intro w x y h
    simp only [convolutionT, if_pos (Or.inl h)]
  · intro w x hx
    unfold flatteningT
    rw [hx]
    rfl
  · intro w x hx
    unfold squaredNormT
    rw [hx]
    rfl

/-- Closed instance of C4 (amended): each hypothesis-bearing conjunct
instantiated at concrete inputs; the short-circuit conjuncts are applied to
the sentinel itself paired with a live tracked matrix. -/
theorem C4_sentinel_policy_witness :
    addT wC tA tWide = (wC, sentinelT) ∧
    subT wC tA tWide = (wC, sentinelT) ∧
    mulT wC tA tWide = (wC, sentinelT) ∧
    divT wC tA tWide = (wC, sentinelT) ∧
    matProdT wC tA tTall = some (wC, sentinelT) ∧
    convolutionT wC tA tWide = some (wC, sentinelT) ∧
    maxPoolingT wC tA [3] = some (wC, sentinelT) ∧
    (∃ p, vertCatT wC (tA :: [tWide]) = some p ∧ p.2 = sentinelT) ∧
    addT wC sentinelT tA = (wC, sentinelT) ∧
    subT wC sentinelT tA = (wC, sentinelT) ∧
    mulT wC sentinelT tA = (wC, sentinelT) ∧
    divT wC sentinelT tA = (wC, sentinelT) ∧
    matProdT wC sentinelT tA = some (wC, sentinelT) ∧
    convolutionT wC sentinelT tA = some (wC, sentinelT) ∧
    flatteningT wC sentinelT = none ∧
    squaredNormT wC sentinelT = none := by
  obtain ⟨-, h2, h3, h4, h5, h6, h7, h8, -, h10, h11, h12, h13, h14, h15, h16,
    h17, h18⟩ := C4_sentinel_policy
  exact ⟨h2 wC tA tWide (by decide), h3 wC tA tWide (by decide),
    h4 wC tA tWide (by decide), h5 wC tA tWide (by decide),
    h6 wC tA tTall (by decide), h7 wC tA tWide (by decide),
    h8 wC tA [3] (by decide),
    h10 wC tA [tWide] 0 rfl (by decide),
    h11 wC sentinelT tA (by decide), h12 wC sentinelT tA (by decide),
    h13 wC sentinelT tA (by decide), h14 wC sentinelT tA (by decide),
    h15 wC sentinelT tA (by decide), h16 wC sentinelT tA (by decide),
    h17 wC sentinelT rfl, h18 wC sentinelT rfl⟩

end ts
